import Mathlib

/-!
Verification of the traffic-sign-detection backend (src/Backend/app.py).

The backend exposes one endpoint: decode the uploaded image, run the YOLO
detector at three resolutions, keep raw boxes whose confidence clears
`CONFIDENCE_THRESHOLD`, and de-duplicate the accumulated detections with
`apply_nms`, which delegates to `torchvision.ops.nms`.

Modelling choices:
* floating-point scores and coordinates are modelled as rationals (ℚ);
* `torchvision.ops.nms` is embedded following its reference kernel:
  indices sorted by score descending (stable sort), then a greedy sweep
  that suppresses a later index `j` when `iou > iou_threshold` (strict);
  the kernel computes `inter / (areaA + areaB - inter)`, and ℚ division
  by zero yields 0, matching the fact that a 0/0 (NaN) overlap ratio
  never exceeds a positive threshold;
* the external detector and image decoder are opaque parameters.
-/

namespace App

/-- Axis-aligned box, fields as in the per-detection payload. -/
structure Box where
  xmin : ℚ
  ymin : ℚ
  xmax : ℚ
  ymax : ℚ
  deriving Repr, DecidableEq, Inhabited

/-- One detection record as built by the `detect` endpoint. -/
structure Detection where
  label : String
  score : ℚ
  box : Box
  deriving Repr, DecidableEq, Inhabited

/-- `CONFIDENCE_THRESHOLD = 0.4` in app.py. -/
def CONFIDENCE_THRESHOLD : ℚ := 2/5

/-- `IOU_THRESHOLD = 0.5` in app.py. -/
def IOU_THRESHOLD : ℚ := 1/2

/-- Box area `(x2 - x1) * (y2 - y1)` as in the nms kernel. -/
def area (a : Box) : ℚ := (a.xmax - a.xmin) * (a.ymax - a.ymin)

/-- Intersection area, widths and heights clamped at 0. -/
def interArea (a b : Box) : ℚ :=
  max 0 (min a.xmax b.xmax - max a.xmin b.xmin) *
    max 0 (min a.ymax b.ymax - max a.ymin b.ymin)

/-- Union area `areaA + areaB - inter`. -/
def unionArea (a b : Box) : ℚ := area a + area b - interArea a b

/-- Overlap ratio `inter / (areaA + areaB - inter)` computed by the nms
kernel.  Division by zero in ℚ yields 0, which reproduces the kernel's
observable behaviour for degenerate boxes: a 0/0 ratio never triggers the
`ovr > iou_threshold` suppression test, exactly as `0 > t` fails for the
positive thresholds the endpoint uses. -/
def iou (a b : Box) : ℚ := interArea a b / unionArea a b

/-- Indices `0..n-1` ordered by score descending; `torch.sort` is called
with `stable=true` in the nms kernel, so ties keep input order, which the
stable `mergeSort` reproduces. -/
def sortedIndices (scores : List ℚ) : List Nat :=
  (List.range scores.length).mergeSort
    (fun i j => decide (scores.getD j 0 ≤ scores.getD i 0))

/-- The greedy sweep of the nms kernel over the score-sorted index list:
keep the front index, drop every later index whose overlap with it is
strictly above the threshold (`ovr > iou_threshold` in the kernel), and
continue on the survivors. -/
def nmsLoop (boxes : List Box) (t : ℚ) : List Nat → List Nat
  | [] => []
  | i :: rest =>
    i :: nmsLoop boxes t
      (rest.filter fun j =>
        decide (iou (boxes.getD i default) (boxes.getD j default) ≤ t))
termination_by l => l.length
decreasing_by
  simp only [List.length_cons]
  exact Nat.lt_succ_of_le (List.length_filter_le _ _)

/-- `torchvision.ops.nms boxes scores iou_threshold`: indices kept,
in decreasing order of score. -/
def nms (boxes : List Box) (scores : List ℚ) (t : ℚ) : List Nat :=
  nmsLoop boxes t (sortedIndices scores)

/-- `apply_nms` from app.py: early-return `[]` on an empty list, build the
parallel box and score arrays, call `nms`, and index back into the input
list. -/
def apply_nms (detections : List Detection) (t : ℚ) : List Detection :=
  if detections.isEmpty then []
  else
    (nms (detections.map (·.box)) (detections.map (·.score)) t).map
      fun i => detections.getD i default

/-- One raw box from the detector: `box.conf[0]`, `box.cls[0]`,
`box.xyxy[0]` in app.py. -/
structure RawBox where
  conf : ℚ
  cls : Nat
  x1 : ℚ
  y1 : ℚ
  x2 : ℚ
  y2 : ℚ
  deriving Repr, DecidableEq

/-- The external YOLO model, consumed as a black box: `run img sz` is the
list of results of `model(img, imgsz=sz)`, each result carrying its
`boxes` list; `names` is the class-id-to-label vocabulary. -/
structure Model (Img : Type) where
  run : Img → Nat → List (List RawBox)
  names : Nat → String

/-- `scales = [640, 960, 1280]` in the detect endpoint. -/
def scales : List Nat := [640, 960, 1280]

/-- The Detection record appended for one raw box:
`label`/`score`/`box` populated from the detector output. -/
def mkDetection {Img : Type} (m : Model Img) (b : RawBox) : Detection :=
  { label := m.names b.cls
    score := b.conf
    box := { xmin := b.x1, ymin := b.y1, xmax := b.x2, ymax := b.y2 } }

/-- The two inner `for` loops of the detect endpoint at one scale:
for each result, for each raw box, append a Detection when
`score >= CONFIDENCE_THRESHOLD`. -/
def scaleDetections {Img : Type} (m : Model Img) (img : Img) (sz : Nat) :
    List Detection :=
  (m.run img sz).flatMap fun r =>
    r.flatMap fun b =>
      if CONFIDENCE_THRESHOLD ≤ b.conf then [mkDetection m b] else []

/-- The multi-scale loop of the detect endpoint.  The first component
logs, in order, the size of every invocation of the external detector;
the second is the flat accumulated `detections` list. -/
def multiScaleDetect {Img : Type} (m : Model Img) (img : Img) :
    List Nat × List Detection :=
  scales.foldl (fun acc sz => (acc.1 ++ [sz], acc.2 ++ scaleDetections m img sz))
    ([], [])

/-- Response payload of the detect endpoint: either the final detection
list or the structured error object. -/
inductive DetectResponse where
  | ok : List Detection → DetectResponse
  | error : String → DetectResponse
  deriving Repr, DecidableEq

/-- The `/detect` endpoint: decode the upload (the decoder is a black-box
parameter; `none` models the decode exception), return
`{"error": "Invalid image"}` on failure, otherwise run the multi-scale
loop and `apply_nms` at `IOU_THRESHOLD`.  The first component logs the
detector invocations of the request. -/
def detect {Img : Type} (decode : List Nat → Option Img) (m : Model Img)
    (contents : List Nat) : List Nat × DetectResponse :=
  match decode contents with
  | none => ([], DetectResponse.error "Invalid image")
  | some img =>
    let r := multiScaleDetect m img
    (r.1, DetectResponse.ok (apply_nms r.2 IOU_THRESHOLD))

end App

namespace Spec

open App (Box Detection iou)

/-- Spec §4.2 step 2: sort all Detections by score descending
(stable sort, as the spec recommends for determinism). -/
def specSort (l : List Detection) : List Detection :=
  l.mergeSort (fun a b => decide (b.score ≤ a.score))

/-- Spec §4.2 steps 3-5, with the comparison the spec states: discard
every remaining Detection whose IoU with the kept one is ≥ the
threshold. -/
def suppressGe (t : ℚ) : List Detection → List Detection
  | [] => []
  | d :: rest =>
    d :: suppressGe t (rest.filter fun e => decide (iou d.box e.box < t))
termination_by l => l.length
decreasing_by
  simp only [List.length_cons]
  exact Nat.lt_succ_of_le (List.length_filter_le _ _)

/-- The spec's reference greedy suppressor (§4.2 algorithm, ≥ threshold). -/
def spec_nms (l : List Detection) (t : ℚ) : List Detection :=
  suppressGe t (specSort l)

/-- The reference greedy suppressor amended to the strict comparison:
discard a remaining Detection only when its IoU with the kept one is
strictly greater than the threshold. -/
def suppressGt (t : ℚ) : List Detection → List Detection
  | [] => []
  | d :: rest =>
    d :: suppressGt t (rest.filter fun e => decide (iou d.box e.box ≤ t))
termination_by l => l.length
decreasing_by
  simp only [List.length_cons]
  exact Nat.lt_succ_of_le (List.length_filter_le _ _)

/-- Amended reference algorithm: sort by score descending, greedily keep
the front Detection and discard remaining ones with IoU strictly above
the threshold. -/
def spec_nms_gt (l : List Detection) (t : ℚ) : List Detection :=
  suppressGt t (specSort l)

end Spec

namespace Equiv

open App Spec

lemma getD_of_lt {α : Type} (l : List α) (d : α) {i : Nat} (h : i < l.length) :
    l.getD i d = l[i] := by
  simp [List.getD_eq_getElem?_getD, List.getElem?_eq_getElem h]

lemma map_getD_range {α : Type} (l : List α) (d : α) :
    (List.range l.length).map (fun i => l.getD i d) = l := by
  apply List.ext_getElem
  · simp
  · intro i h1 h2
    simp only [List.getElem_map, List.getElem_range]
    exact getD_of_lt l d h2

lemma sortedIndices_map (l : List Detection) :
    (sortedIndices (l.map (·.score))).map (fun i => l.getD i default) =
      specSort l := by
  unfold sortedIndices specSort
  rw [List.length_map]
  rw [List.map_mergeSort (s := fun a b => decide (b.score ≤ a.score))]
  · rw [map_getD_range]
  · intro i hi j hj
    rw [List.mem_range] at hi hj
    have e : ∀ k : Nat, k < l.length →
        (l.map (·.score)).getD k 0 = (l.getD k default).score := by
      intro k hk
      rw [getD_of_lt _ _ (by simpa using hk), getD_of_lt _ _ hk,
        List.getElem_map]
    rw [e i hi, e j hj]

lemma mem_sortedIndices {scores : List ℚ} {i : Nat}
    (h : i ∈ sortedIndices scores) : i < scores.length := by
  unfold sortedIndices at h
  rw [List.mem_mergeSort, List.mem_range] at h
  exact h

lemma nmsLoop_map (l : List Detection) (t : ℚ) :
    ∀ is : List Nat, (∀ j ∈ is, j < l.length) →
      (nmsLoop (l.map (·.box)) t is).map (fun i => l.getD i default) =
        suppressGt t (is.map (fun i => l.getD i default))
  | [], _ => by simp [nmsLoop, suppressGt]
  | i :: rest, h => by
    have hi : i < l.length := h i (List.mem_cons_self i rest)
    have hbox : ∀ j : Nat, j < l.length →
        (l.map (·.box)).getD j default = (l.getD j default).box := by
      intro j hj
      rw [getD_of_lt _ _ (by simpa using hj), getD_of_lt _ _ hj,
        List.getElem_map]
    rw [nmsLoop, List.map_cons, List.map_cons, suppressGt]
    rw [List.filter_map]
    congr 1
    have hrest : ∀ j ∈ rest.filter (fun j =>
        decide (iou ((l.map (·.box)).getD i default)
          ((l.map (·.box)).getD j default) ≤ t)), j < l.length := by
      intro j hj
      exact h j (List.mem_cons_of_mem i (List.mem_of_mem_filter hj))
    rw [nmsLoop_map l t _ hrest]
    have hfil : rest.filter (fun j =>
          decide (iou ((l.map (·.box)).getD i default)
            ((l.map (·.box)).getD j default) ≤ t)) =
        rest.filter ((fun e => decide (iou (l.getD i default).box e.box ≤ t)) ∘
          fun i => l.getD i default) := by
      apply List.filter_congr
      intro j hj
      have hjlt : j < l.length := h j (List.mem_cons_of_mem i hj)
      simp only [Function.comp]
      rw [hbox i hi, hbox j hjlt]
    rw [hfil]
termination_by is => is.length
decreasing_by
  simp only [List.length_cons]
  exact Nat.lt_succ_of_le (List.length_filter_le _ _)

/-- `apply_nms` coincides with the amended reference greedy algorithm
(sort by score descending, suppress strictly-above-threshold overlaps). -/
lemma apply_nms_eq_spec_gt (l : List Detection) (t : ℚ) :
    apply_nms l t = spec_nms_gt l t := by
  unfold apply_nms spec_nms_gt
  cases l with
  | nil => simp [nms, sortedIndices, nmsLoop, specSort, suppressGt]
  | cons d rest =>
    simp only [List.isEmpty_cons, Bool.false_eq_true, if_false]
    unfold nms
    rw [nmsLoop_map (d :: rest) t (sortedIndices ((d :: rest).map (·.score)))
      (fun j hj => by simpa using mem_sortedIndices hj)]
    rw [sortedIndices_map]

lemma suppressGt_sublist (t : ℚ) : ∀ l : List Detection,
    (suppressGt t l).Sublist l
  | [] => by simp [suppressGt]
  | d :: rest => by
    rw [suppressGt]
    apply List.Sublist.cons₂
    exact (suppressGt_sublist t _).trans (List.filter_sublist rest)
termination_by l => l.length
decreasing_by
  simp only [List.length_cons]
  exact Nat.lt_succ_of_le (List.length_filter_le _ _)

lemma specSort_perm (l : List Detection) : (specSort l).Perm l :=
  List.mergeSort_perm l _

lemma specSort_sorted (l : List Detection) :
    (specSort l).Pairwise (fun a b => decide (b.score ≤ a.score)) := by
  apply List.sorted_mergeSort
  · intro a b c hab hbc
    simp only [decide_eq_true_eq] at hab hbc ⊢
    exact le_trans hbc hab
  · intro a b
    simp [le_total]

lemma specSort_pair {d1 d2 : Detection} (h : d2.score ≤ d1.score) :
    specSort [d1, d2] = [d1, d2] := by
  apply List.mergeSort_of_sorted
  simp [h]

/-- Closed form of `apply_nms` on a two-element list given in
score-descending order: the second Detection survives exactly when its
overlap with the first is not strictly above the threshold. -/
lemma apply_nms_pair {d1 d2 : Detection} (t : ℚ) (h : d2.score ≤ d1.score) :
    apply_nms [d1, d2] t =
      if iou d1.box d2.box ≤ t then [d1, d2] else [d1] := by
  rw [Equiv.apply_nms_eq_spec_gt]
  unfold spec_nms_gt
  rw [specSort_pair h]
  rw [suppressGt]
  by_cases hle : iou d1.box d2.box ≤ t
  · simp only [hle, if_true]
    simp [suppressGt, hle]
  · simp only [hle, if_false]
    simp [suppressGt, hle]

/-- Closed form of the spec's ≥-threshold suppressor on a two-element
score-descending list. -/
lemma suppressGe_pair (d1 d2 : Detection) (t : ℚ) :
    suppressGe t [d1, d2] =
      if iou d1.box d2.box < t then [d1, d2] else [d1] := by
  rw [suppressGe]
  by_cases hlt : iou d1.box d2.box < t
  · simp only [hlt, if_true]
    simp [suppressGe, hlt]
  · simp only [hlt, if_false]
    simp [suppressGe, hlt]

end Equiv

open App Spec Equiv

/-- C9: the suppressor called with an empty Detection list returns an
empty list (`if not detections: return []` in `apply_nms`). -/
theorem c9_empty_input (t : ℚ) : apply_nms [] t = [] := rfl

/-- C5: the suppressor only filters: every Detection in the output of
`apply_nms` is an element of the input list (hence unchanged in label,
score and box), and the output length is at most the input length. -/
theorem c5_filter_only (l : List Detection) (t : ℚ) :
    (∀ d ∈ apply_nms l t, d ∈ l) ∧ (apply_nms l t).length ≤ l.length := by
  rw [apply_nms_eq_spec_gt]
  unfold spec_nms_gt
  constructor
  · intro d hd
    have h1 : d ∈ specSort l :=
      (suppressGt_sublist t (specSort l)).mem hd
    exact (specSort_perm l).mem_iff.mp h1
  · calc (suppressGt t (specSort l)).length
        ≤ (specSort l).length := (suppressGt_sublist t (specSort l)).length_le
      _ = l.length := (specSort_perm l).length_eq

/-- C1 counterexample: at IoU exactly equal to the threshold the code
(`torchvision.ops.nms`, strict `>` comparison) keeps both boxes while the
spec's reference algorithm (`≥` comparison) discards the lower-scoring
one, so `apply_nms` does not return the result of the spec's reference
greedy algorithm.  Boxes `{0,0,1,1}` and `{0,0,1,2}` have IoU `1/2`;
threshold `1/2`. -/
theorem c1_counterexample :
    apply_nms [⟨"a", 9/10, ⟨0, 0, 1, 1⟩⟩, ⟨"b", 8/10, ⟨0, 0, 1, 2⟩⟩] (1/2) ≠
      spec_nms [⟨"a", 9/10, ⟨0, 0, 1, 1⟩⟩, ⟨"b", 8/10, ⟨0, 0, 1, 2⟩⟩] (1/2) := by
  have hiou : iou ⟨0, 0, 1, 1⟩ ⟨0, 0, 1, 2⟩ = 1/2 := by
    norm_num [iou, interArea, area, unionArea]
  have hl : apply_nms [⟨"a", 9/10, ⟨0, 0, 1, 1⟩⟩, ⟨"b", 8/10, ⟨0, 0, 1, 2⟩⟩]
      (1/2) = [⟨"a", 9/10, ⟨0, 0, 1, 1⟩⟩, ⟨"b", 8/10, ⟨0, 0, 1, 2⟩⟩] := by
    rw [apply_nms_pair (1/2) (by norm_num), hiou]
    norm_num
  have hr : spec_nms [⟨"a", 9/10, ⟨0, 0, 1, 1⟩⟩, ⟨"b", 8/10, ⟨0, 0, 1, 2⟩⟩]
      (1/2) = [⟨"a", 9/10, ⟨0, 0, 1, 1⟩⟩] := by
    unfold spec_nms
    rw [specSort_pair (by norm_num), suppressGe_pair, hiou]
    norm_num
  rw [hl, hr]
  intro h
  have := congrArg List.length h
  simp at this

/-- C1 amended: `apply_nms` returns exactly the result of the reference
greedy algorithm with the suppression comparison made strict: sort by
score descending (stable), repeatedly keep the highest-scoring remaining
Detection and discard every remaining Detection whose IoU with it is
strictly greater than the threshold, returning the kept list in
descending-score order. -/
theorem c1_amended_refinement (l : List Detection) (t : ℚ) :
    apply_nms l t = spec_nms_gt l t :=
  apply_nms_eq_spec_gt l t

/-- C2 counterexample: two boxes whose IoU is exactly the threshold are
NOT suppressed by the code: `torchvision.ops.nms` discards only on
`IoU > threshold`, so the lower-scoring Detection survives. -/
theorem c2_counterexample :
    iou ⟨0, 0, 1, 1⟩ ⟨0, 0, 1, 2⟩ = 1/2 ∧
      apply_nms [⟨"a", 9/10, ⟨0, 0, 1, 1⟩⟩, ⟨"b", 8/10, ⟨0, 0, 1, 2⟩⟩] (1/2) =
        [⟨"a", 9/10, ⟨0, 0, 1, 1⟩⟩, ⟨"b", 8/10, ⟨0, 0, 1, 2⟩⟩] := by
  have hiou : iou ⟨0, 0, 1, 1⟩ ⟨0, 0, 1, 2⟩ = 1/2 := by
    norm_num [iou, interArea, area, unionArea]
  refine ⟨hiou, ?_⟩
  rw [apply_nms_pair (1/2) (by norm_num), hiou]
  norm_num

/-- C2 amended: for every pair of Detections whose boxes have IoU exactly
equal to the suppression threshold, the suppressor keeps both (the
comparison used for suppression is strictly greater than the threshold,
not ≥). -/
theorem c2_amended_boundary (d1 d2 : Detection) (t : ℚ)
    (hs : d2.score ≤ d1.score) (hiou : iou d1.box d2.box = t) :
    apply_nms [d1, d2] t = [d1, d2] := by
  rw [apply_nms_pair t hs, hiou]
  simp

/-- Witness for C2: the boundary theorem applied to boxes `{0,0,1,1}` and
`{0,0,1,2}` (IoU `1/2`) at threshold `1/2`. -/
theorem c2_amended_boundary_witness :
    apply_nms [⟨"a", 9/10, ⟨0, 0, 1, 1⟩⟩, ⟨"b", 8/10, ⟨0, 0, 1, 2⟩⟩] (1/2) =
      [⟨"a", 9/10, ⟨0, 0, 1, 1⟩⟩, ⟨"b", 8/10, ⟨0, 0, 1, 2⟩⟩] :=
  c2_amended_boundary ⟨"a", 9/10, ⟨0, 0, 1, 1⟩⟩ ⟨"b", 8/10, ⟨0, 0, 1, 2⟩⟩ (1/2)
    (by norm_num) (by norm_num [iou, interArea, area, unionArea])

/-- C7: boxes `{0,0,10,10}` and `{5,5,15,15}` have IoU `25/175`; at
threshold `1/2` the suppressor keeps both Detections, at threshold
`1/10` only the higher-scoring one. -/
theorem c7_iou_correctness :
    iou ⟨0, 0, 10, 10⟩ ⟨5, 5, 15, 15⟩ = 25/175 ∧
      apply_nms [⟨"a", 9/10, ⟨0, 0, 10, 10⟩⟩, ⟨"b", 8/10, ⟨5, 5, 15, 15⟩⟩]
          (1/2) =
        [⟨"a", 9/10, ⟨0, 0, 10, 10⟩⟩, ⟨"b", 8/10, ⟨5, 5, 15, 15⟩⟩] ∧
      apply_nms [⟨"a", 9/10, ⟨0, 0, 10, 10⟩⟩, ⟨"b", 8/10, ⟨5, 5, 15, 15⟩⟩]
          (1/10) =
        [⟨"a", 9/10, ⟨0, 0, 10, 10⟩⟩] := by
  have hiou : iou ⟨0, 0, 10, 10⟩ ⟨5, 5, 15, 15⟩ = 25/175 := by
    norm_num [iou, interArea, area, unionArea]
  refine ⟨hiou, ?_, ?_⟩
  · rw [apply_nms_pair (1/2) (by norm_num), hiou]
    norm_num
  · rw [apply_nms_pair (1/10) (by norm_num), hiou]
    norm_num

/-- C8: a zero union area yields IoU 0 (the suppressor's total ℚ
division returns 0 on a zero denominator, so no division-by-zero failure
occurs), and hence a pair of degenerate boxes with union area 0 never
suppresses one another under any positive threshold. -/
theorem c8_degenerate_boxes :
    (∀ a b : Box, unionArea a b = 0 → iou a b = 0) ∧
      ∀ (d1 d2 : Detection) (t : ℚ), 0 < t → d2.score ≤ d1.score →
        unionArea d1.box d2.box = 0 → apply_nms [d1, d2] t = [d1, d2] := by
  constructor
  · intro a b h
    rw [iou, h, div_zero]
  · intro d1 d2 t ht hs h
    rw [apply_nms_pair t hs]
    have : iou d1.box d2.box = 0 := by rw [iou, h, div_zero]
    rw [this]
    simp [le_of_lt ht]

/-- Witness for C8: both conjuncts applied to the degenerate box
`{0,0,0,0}` (union area 0) at threshold `1/2`. -/
theorem c8_degenerate_boxes_witness :
    iou ⟨0, 0, 0, 0⟩ ⟨0, 0, 0, 0⟩ = 0 ∧
      apply_nms [⟨"a", 9/10, ⟨0, 0, 0, 0⟩⟩, ⟨"b", 8/10, ⟨0, 0, 0, 0⟩⟩] (1/2) =
        [⟨"a", 9/10, ⟨0, 0, 0, 0⟩⟩, ⟨"b", 8/10, ⟨0, 0, 0, 0⟩⟩] :=
  ⟨c8_degenerate_boxes.1 ⟨0, 0, 0, 0⟩ ⟨0, 0, 0, 0⟩
      (by norm_num [unionArea, area, interArea]),
    c8_degenerate_boxes.2 ⟨"a", 9/10, ⟨0, 0, 0, 0⟩⟩ ⟨"b", 8/10, ⟨0, 0, 0, 0⟩⟩
      (1/2) (by norm_num) (by norm_num)
      (by norm_num [unionArea, area, interArea])⟩

/-- C10: on a non-empty input the suppressor returns a non-empty list,
and it keeps a Detection whose score is maximal in the input. -/
theorem c10_nonempty_output (l : List Detection) (t : ℚ) (h : l ≠ []) :
    apply_nms l t ≠ [] ∧
      ∃ d ∈ apply_nms l t, ∀ e ∈ l, e.score ≤ d.score := by
  rw [apply_nms_eq_spec_gt]
  unfold spec_nms_gt
  have hne : specSort l ≠ [] := by
    intro hnil
    have := (specSort_perm l).length_eq
    rw [hnil] at this
    exact h (List.length_eq_zero.mp this.symm)
  obtain ⟨d, rest, hd⟩ := List.exists_cons_of_ne_nil hne
  have hsorted := specSort_sorted l
  rw [hd] at hsorted ⊢
  rw [suppressGt]
  refine ⟨by simp, d, List.mem_cons_self d _, ?_⟩
  intro e he
  have he2 : e ∈ specSort l := (specSort_perm l).mem_iff.mpr he
  rw [hd] at he2
  rcases List.mem_cons.mp he2 with h1 | h1
  · rw [h1]
  · have := (List.pairwise_cons.mp hsorted).1 e h1
    simpa using this

/-- Witness for C10: the theorem applied to a singleton list at the
default threshold. -/
theorem c10_nonempty_output_witness :
    apply_nms [⟨"a", 9/10, ⟨0, 0, 1, 1⟩⟩] (1/2) ≠ [] ∧
      ∃ d ∈ apply_nms [⟨"a", 9/10, ⟨0, 0, 1, 1⟩⟩] (1/2),
        ∀ e ∈ [(⟨"a", 9/10, ⟨0, 0, 1, 1⟩⟩ : Detection)], e.score ≤ d.score :=
  c10_nonempty_output [⟨"a", 9/10, ⟨0, 0, 1, 1⟩⟩] (1/2) (by simp)

lemma specSort_map_relabel (f : String → String) (l : List Detection) :
    specSort (l.map fun d => { d with label := f d.label }) =
      (specSort l).map fun d => { d with label := f d.label } := by
  unfold specSort
  exact (List.map_mergeSort
    (r := fun a b : Detection => decide (b.score ≤ a.score))
    (s := fun a b : Detection => decide (b.score ≤ a.score))
    (f := fun d : Detection => { d with label := f d.label })
    (fun a _ b _ => rfl)).symm

lemma suppressGt_map_relabel (f : String → String) (t : ℚ) :
    ∀ l : List Detection,
      suppressGt t (l.map fun d => { d with label := f d.label }) =
        (suppressGt t l).map fun d => { d with label := f d.label }
  | [] => by simp [suppressGt]
  | d :: rest => by
    rw [List.map_cons, suppressGt, suppressGt, List.map_cons]
    congr 1
    rw [List.filter_map]
    have hfil : rest.filter ((fun e =>
          decide (iou ({ d with label := f d.label } : Detection).box e.box
            ≤ t)) ∘ fun d => { d with label := f d.label }) =
        rest.filter fun e => decide (iou d.box e.box ≤ t) := by
      apply List.filter_congr
      intro e _
      rfl
    rw [hfil]
    exact suppressGt_map_relabel f t _
termination_by l => l.length
decreasing_by
  simp only [List.length_cons]
  exact Nat.lt_succ_of_le (List.length_filter_le _ _)

/-- C6: suppression is class-agnostic.  The "cat" (score 0.9) and "dog"
(score 0.85) Detections with IoU `9/10` at threshold `1/2` reduce to the
"cat" Detection alone, and in general labels play no role: relabelling
the input commutes with `apply_nms`. -/
theorem c6_class_agnostic :
    apply_nms [⟨"cat", 9/10, ⟨0, 0, 10, 10⟩⟩,
        ⟨"dog", 85/100, ⟨0, 1, 10, 10⟩⟩] (1/2) =
      [⟨"cat", 9/10, ⟨0, 0, 10, 10⟩⟩] ∧
    ∀ (f : String → String) (l : List Detection) (t : ℚ),
      apply_nms (l.map fun d => { d with label := f d.label }) t =
        (apply_nms l t).map fun d => { d with label := f d.label } := by
  constructor
  · have hiou : iou ⟨0, 0, 10, 10⟩ ⟨0, 1, 10, 10⟩ = 9/10 := by
      norm_num [iou, interArea, area, unionArea]
    rw [apply_nms_pair (1/2) (by norm_num), hiou]
    norm_num
  · intro f l t
    rw [apply_nms_eq_spec_gt, apply_nms_eq_spec_gt]
    unfold spec_nms_gt
    rw [specSort_map_relabel, suppressGt_map_relabel]

lemma mem_scaleDetections {Img : Type} (m : Model Img) (img : Img) (sz : Nat)
    (d : Detection) :
    d ∈ scaleDetections m img sz ↔
      ∃ r ∈ m.run img sz, ∃ b ∈ r,
        CONFIDENCE_THRESHOLD ≤ b.conf ∧ d = mkDetection m b := by
  simp only [scaleDetections, List.mem_flatMap]
  constructor
  · rintro ⟨r, hr, b, hb, hd⟩
    by_cases hc : CONFIDENCE_THRESHOLD ≤ b.conf
    · rw [if_pos hc] at hd
      simp only [List.mem_singleton] at hd
      exact ⟨r, hr, b, hb, hc, hd⟩
    · rw [if_neg hc] at hd
      simp at hd
  · rintro ⟨r, hr, b, hb, hc, hd⟩
    refine ⟨r, hr, b, hb, ?_⟩
    rw [if_pos hc]
    simp [hd]

/-- C3: on a decoded image the adapter runs the detector exactly once
per resolution of `[640, 960, 1280]` (in that order), accumulates one
flat list with no per-scale bookkeeping, and a raw detection yields a
Detection in that list iff its confidence is ≥ `CONFIDENCE_THRESHOLD`
(0.4). -/
theorem c3_multiscale_adapter {Img : Type} (m : Model Img) (img : Img) :
    (multiScaleDetect m img).1 = [640, 960, 1280] ∧
      (multiScaleDetect m img).2 =
        (scales.map fun sz => scaleDetections m img sz).flatten ∧
      ∀ d : Detection, d ∈ (multiScaleDetect m img).2 ↔
        ∃ sz ∈ scales, ∃ r ∈ m.run img sz, ∃ b ∈ r,
          CONFIDENCE_THRESHOLD ≤ b.conf ∧ d = mkDetection m b := by
  refine ⟨?_, ?_, ?_⟩
  · simp [multiScaleDetect, scales]
  · simp [multiScaleDetect, scales]
  · intro d
    have h2 : (multiScaleDetect m img).2 =
        (scales.map fun sz => scaleDetections m img sz).flatten := by
      simp [multiScaleDetect, scales]
    rw [h2, List.mem_flatten]
    constructor
    · rintro ⟨l, hl, hd⟩
      rw [List.mem_map] at hl
      obtain ⟨sz, hsz, rfl⟩ := hl
      obtain ⟨r, hr, b, hb, hc, hd⟩ := (mem_scaleDetections m img sz d).mp hd
      exact ⟨sz, hsz, r, hr, b, hb, hc, hd⟩
    · rintro ⟨sz, hsz, r, hr, b, hb, hc, hd⟩
      refine ⟨scaleDetections m img sz, List.mem_map_of_mem _ hsz, ?_⟩
      exact (mem_scaleDetections m img sz d).mpr ⟨r, hr, b, hb, hc, hd⟩

/-- C4: when the uploaded bytes fail image decoding, the detect endpoint
returns the structured payload `{"error": "Invalid image"}` and the
detector is never invoked (empty invocation log). -/
theorem c4_invalid_image {Img : Type} (decode : List Nat → Option Img)
    (m : Model Img) (contents : List Nat) (h : decode contents = none) :
    detect decode m contents = ([], DetectResponse.error "Invalid image") := by
  unfold detect
  rw [h]

/-- Witness for C4: a decoder that rejects every payload. -/
theorem c4_invalid_image_witness :
    detect (fun _ => (none : Option Unit)) ⟨fun _ _ => [], fun _ => ""⟩ [] =
      ([], DetectResponse.error "Invalid image") :=
  c4_invalid_image (fun _ => none) ⟨fun _ _ => [], fun _ => ""⟩ [] rfl
